import Mathlib

/-!
Verification development for the Dataroma-Analyzer scraping pipeline.

The Python sources under `src/` are shallowly embedded here:

* `src/lib/utils/parsers.py` (`DataromaParser`): the pure text/number
  parsers, the action-type classifier, the manager-roster parser and the
  activity token-stream parser (the while-loop over the `tbody` children
  of the activity table).
* `src/lib/clients/http_client.py` (`RateLimiter`, `HTTPClient.get`).
* `src/dataroma_scrape.py` (`_scrape_manager_activities` pagination).

Python strings are `String`, Python `float` values are modelled as `ℚ`
(the decimal literals handled by the code are exact rationals; the model
of `float(...)` omits `inf`/`nan`, which no relevant input produces),
Python `int` is `Int`, and fallible operations return `Option`.
HTML is modelled at the level the code consumes it after BeautifulSoup:
an anchor is (href, text); a `tbody` child is a text node or a tag with
name, class list, text, and — for `td` cells — the link/span structure
the cell accessors read.
-/

namespace Dataroma

/-- Python `\s` / `str.strip` whitespace (the ASCII whitespace class). -/
def pySpace (c : Char) : Bool :=
  c = ' ' || c = '\t' || c = '\n' || c = '\r' || c = '\x0b' || c = '\x0c'

/-- Python `str.strip()` on the character list. -/
def stripChars (cs : List Char) : List Char :=
  ((cs.dropWhile pySpace).reverse.dropWhile pySpace).reverse

/-- Python `str.strip()`. -/
def pyStrip (s : String) : String :=
  String.mk (stripChars s.data)

/-- Python `str.lstrip(set)`: drop leading characters belonging to `set`. -/
def lstripSet (s : String) (set : List Char) : String :=
  String.mk (s.data.dropWhile (fun c => set.contains c))

/-- Does `pat` start the list `l`? -/
def startsWithList : List Char → List Char → Bool
  | [], _ => true
  | _ :: _, [] => false
  | a :: as, b :: bs => a = b && startsWithList as bs

/-- Python substring containment `pat in hay` on character lists. -/
def listContainsSub (pat : List Char) : List Char → Bool
  | [] => pat.isEmpty
  | c :: rest => startsWithList pat (c :: rest) || listContainsSub pat rest

/-- Python `pat in hay` for strings. -/
def containsSub (hay pat : String) : Bool :=
  listContainsSub pat.data hay.data

/-- Split at the first occurrence of `sep` (Python `s.split(sep, 1)`), if any. -/
def splitFirstAux (sep : List Char) : List Char → Option (List Char × List Char)
  | [] => none
  | c :: rest =>
    if startsWithList sep (c :: rest) then some ([], (c :: rest).drop sep.length)
    else
      match splitFirstAux sep rest with
      | some (pre, post) => some (c :: pre, post)
      | none => none

/-- Python `s.split(sep, 1)` restricted to the case the separator occurs. -/
def splitFirstStr (s sep : String) : Option (String × String) :=
  (splitFirstAux sep.data s.data).map (fun p => (String.mk p.1, String.mk p.2))

/-- Python `str.lower()` (ASCII case mapping). -/
def pyLower (s : String) : String :=
  String.mk (s.data.map Char.toLower)

/-- Python `s.split(sep)` scan (non-overlapping, left to right): `skip`
counts separator characters still to consume after a match. -/
def splitGo (sep : List Char) : List Char → Nat → List Char → List (List Char)
  | [], _, cur => [cur.reverse]
  | _ :: rest, skip + 1, cur => splitGo sep rest skip cur
  | c :: rest, 0, cur =>
    if ¬ sep.isEmpty ∧ startsWithList sep (c :: rest) then
      cur.reverse :: splitGo sep rest (sep.length - 1) []
    else splitGo sep rest 0 (c :: cur)

/-- Python `s.split(sep)` for a non-empty separator. -/
def pySplit (s sep : String) : List String :=
  (splitGo sep.data s.data 0 []).map String.mk

/-- Python `s.replace(pat, "")`: remove every occurrence of `pat`. -/
def pyRemoveAll (s pat : String) : String :=
  String.mk ((splitGo pat.data s.data 0 []).flatten)

/-- Numeric value of a list of decimal digits. -/
def digitsToNat (ds : List Char) : Nat :=
  ds.foldl (fun n c => 10 * n + (c.toNat - 48)) 0

/-! ### Model of Python `float(...)` on the strings this code feeds it

Python float literals: optional whitespace, optional sign, then either
`digits [. [digits]]` or `. digits`, with an optional exponent; single
underscores are permitted between digits.  `inf`/`nan` spellings are not
modelled (they have no rational value and never arise from the pages). -/

/-- Continue a digit group after at least one digit: more digits, with
single underscores allowed between digits. -/
def moreDigits : List Char → List Char × List Char
  | [] => ([], [])
  | c :: rest =>
    if c.isDigit then
      let p := moreDigits rest
      (c :: p.1, p.2)
    else if c = '_' then
      match rest with
      | d :: rest2 =>
        if d.isDigit then
          let p := moreDigits rest2
          (d :: p.1, p.2)
        else ([], c :: rest)
      | [] => ([], [c])
    else ([], c :: rest)

/-- Parse a digit group (at least one digit, underscores between digits). -/
def parseDigitGroup : List Char → Option (List Char × List Char)
  | [] => none
  | c :: rest =>
    if c.isDigit then
      let p := moreDigits rest
      some (c :: p.1, p.2)
    else none

/-- Parse an optional exponent part; must consume the whole remainder. -/
def parseExpPart : List Char → Option Int
  | [] => some 0
  | c :: rest =>
    if c = 'e' ∨ c = 'E' then
      let sr : Int × List Char :=
        match rest with
        | d :: r => if d = '+' then (1, r) else if d = '-' then (-1, r) else (1, d :: r)
        | [] => (1, [])
      match parseDigitGroup sr.2 with
      | some (ds, []) => some (sr.1 * (digitsToNat ds : Int))
      | _ => none
    else none

/-- Scale a rational by a (possibly negative) power of ten. -/
def applyExp (q : ℚ) (e : Int) : ℚ := q * (10 : ℚ) ^ e

/-- Parse an unsigned float body (after sign/whitespace), entire input. -/
def parseUnsignedFloat (cs : List Char) : Option ℚ :=
  match parseDigitGroup cs with
  | some (ds, rest) =>
    match rest with
    | r :: rest2 =>
      if r = '.' then
        match parseDigitGroup rest2 with
        | some (fs, rest3) => do
          let e ← parseExpPart rest3
          pure (applyExp ((digitsToNat ds : ℚ) + (digitsToNat fs : ℚ) / (10 : ℚ) ^ fs.length) e)
        | none => do
          let e ← parseExpPart rest2
          pure (applyExp (digitsToNat ds : ℚ) e)
      else do
        let e ← parseExpPart (r :: rest2)
        pure (applyExp (digitsToNat ds : ℚ) e)
    | [] => some (digitsToNat ds : ℚ)
  | none =>
    match cs with
    | c :: rest2 =>
      if c = '.' then
        match parseDigitGroup rest2 with
        | some (fs, rest3) => do
          let e ← parseExpPart rest3
          pure (applyExp ((digitsToNat fs : ℚ) / (10 : ℚ) ^ fs.length) e)
        | none => none
      else none
    | [] => none

/-- Model of Python `float(s)`: `some q` when `s` is a finite float
literal with exact rational value `q`, `none` when `float` raises. -/
def pyFloat (s : String) : Option ℚ :=
  match stripChars s.data with
  | [] => none
  | c :: rest =>
    if c = '+' then parseUnsignedFloat rest
    else if c = '-' then (parseUnsignedFloat rest).map Neg.neg
    else parseUnsignedFloat (c :: rest)

/-! ### Numeric cell parsers (`DataromaParser._parse_number`,
`_parse_percentage`, `_parse_currency`) -/

/-- `_parse_number`: `re.sub(r'[,\s]', '', text)`, then the first maximal
run of digits (`re.search(r'\d+', ...)`) as an `int`; `0` when empty or
no digit occurs. -/
def parse_number (text : String) : Int :=
  if text = "" then 0
  else
    let clean := text.data.filter (fun c => ¬ (c = ',' ∨ pySpace c))
    let digits := (clean.dropWhile (fun c => ¬ c.isDigit)).takeWhile Char.isDigit
    if digits.isEmpty then 0 else (digitsToNat digits : Int)

/-- `_parse_percentage`: drop every `%`, strip, `float(...)` with `0.0`
on `ValueError`; `0.0` for the empty string. -/
def parse_percentage (text : String) : ℚ :=
  if text = "" then 0
  else
    let clean := pyStrip (String.mk (text.data.filter (fun c => ¬ c = '%')))
    (pyFloat clean).getD 0

/-- `_parse_currency`: `re.sub(r'[\$,\s]', '', text)`, then `float(...)`
with `0.0` on `ValueError`; `0.0` for the empty string. -/
def parse_currency (text : String) : ℚ :=
  if text = "" then 0
  else
    let clean := String.mk (text.data.filter (fun c => ¬ (c = '$' ∨ c = ',' ∨ pySpace c)))
    (pyFloat clean).getD 0

/-! ### Action-type classifier (`DataromaParser._extract_action_type`) -/

/-- `_extract_action_type`: `""` for empty input, then ordered substring
checks on the lower-cased action text. -/
def extract_action_type (action : String) : String :=
  if action = "" then ""
  else
    let lower := pyLower action
    if containsSub lower "buy" then "Buy"
    else if containsSub lower "add" then "Add"
    else if containsSub lower "reduce" then "Reduce"
    else if containsSub lower "sell" || containsSub lower "sold" then "Sell"
    else "Hold"

/-- The classifier as §5 of the spec words it ("sold all"/"sold out"/
"exit" → Sell; "new"/"buy" → Buy; "add" or leading "+" → Add; "reduce"
or leading "-" → Reduce; otherwise Hold), for comparison with
`extract_action_type`. -/
def spec_action_type (action : String) : String :=
  let lower := pyLower action
  if containsSub lower "sold all" || containsSub lower "sold out" || containsSub lower "exit" then "Sell"
  else if containsSub lower "new" || containsSub lower "buy" then "Buy"
  else if containsSub lower "add" || lower.data.headD ' ' = '+' then "Add"
  else if containsSub lower "reduce" || lower.data.headD ' ' = '-' then "Reduce"
  else "Hold"

/-! ### Data models (`src/lib/models/models.py`), with the fields the
parsers populate -/

structure Manager where
  id : String
  name : String
  firm : String
  portfolio_value : ℚ
  deriving Repr, DecidableEq

structure Activity where
  symbol : String
  manager_id : String
  action : String
  date : String
  percentage_change : ℚ := 0
  action_type : String := ""
  shares : Int := 0
  portfolio_percentage : ℚ := 0
  company_name : String := ""
  deriving Repr, DecidableEq

structure Holding where
  symbol : String
  company_name : String
  manager_id : String
  shares : Int
  value : Int
  percentage : ℚ
  portfolio_percent : ℚ := 0
  reported_price : ℚ := 0
  current_price : ℚ := 0
  recent_activity : String := ""
  week_52_low : ℚ := 0
  week_52_high : ℚ := 0
  reporting_date : String := ""
  reporting_quarter : String := ""
  deriving Repr, DecidableEq

/-! ### HTML as the code consumes it

An anchor is its `href` and visible text.  A cell (`td`) carries its
class list, its text, and the first `<a>` inside it, if any, with that
link's `href`, text and the text of the first `<span>` inside the link. -/

structure Link where
  href : String
  text : String
  spanText : Option String
  deriving Repr, DecidableEq

structure Anchor where
  href : String
  text : String
  deriving Repr, DecidableEq

structure Cell where
  classes : List String := []
  text : String := ""
  link : Option Link := none
  deriving Repr, DecidableEq

instance : Inhabited Cell := ⟨{}⟩

/-- A direct child of the activity table's `tbody`: a bare text node, a
`tr` row (with its class list and text), a bare `td` cell, or some other
tag. -/
inductive Node where
  | textNode (s : String)
  | tr (classes : List String) (txt : String)
  | td (c : Cell)
  | otherTag (name : String)
  deriving Repr, DecidableEq

/-! ### Manager roster (`DataromaParser.parse_managers_list`) -/

/-- The anchor filter: `"/m/holdings.php?m=" in href`. -/
def isManagerHref (href : String) : Bool :=
  containsSub href "/m/holdings.php?m="

/-- `href.split("m=")[-1]`. -/
def managerIdOfHref (href : String) : String :=
  (pySplit href "m=").getLastD ""

/-- Build one `Manager` from an anchor: text stripped, split on the first
`" - "` into name/firm when possible, `portfolio_value = 0`. -/
def managerOfAnchor (a : Anchor) : Manager :=
  let manager_text := pyStrip a.text
  match splitFirstStr manager_text " - " with
  | some p => { id := managerIdOfHref a.href, name := pyStrip p.1, firm := pyStrip p.2, portfolio_value := 0 }
  | none => { id := managerIdOfHref a.href, name := manager_text, firm := "", portfolio_value := 0 }

/-- The scan body of `parse_managers_list`: walk the anchors in document
order with the `seen_ids` set. -/
def parseManagersGo (seen : List String) : List Anchor → List Manager
  | [] => []
  | a :: rest =>
    if isManagerHref a.href then
      let mid := managerIdOfHref a.href
      if seen.contains mid then parseManagersGo seen rest
      else managerOfAnchor a :: parseManagersGo (mid :: seen) rest
    else parseManagersGo seen rest

/-- `parse_managers_list`, over the document-order list of anchors with
an `href` attribute (`soup.find_all("a", href=True)`). -/
def parse_managers_list (anchors : List Anchor) : List Manager :=
  parseManagersGo [] anchors

/-- First-seen de-duplication, written independently of the parser: keep
the head, drop every later equal element. -/
def dedupFirst : List String → List String
  | [] => []
  | x :: rest => x :: dedupFirst (rest.filter (fun y => ! (y == x)))
termination_by l => l.length
decreasing_by
  simp only [List.length_cons]
  exact Nat.lt_succ_of_le (List.length_filter_le _ _)

/-- The manager codes of the matching anchors, in document order. -/
def anchorIds (anchors : List Anchor) : List String :=
  (anchors.filter (fun a => isManagerHref a.href)).map (fun a => managerIdOfHref a.href)

/-! ### Quarter-header regex (`re.search(r"(Q[1-4])\s+(\d{4})", text)`) -/

/-- Try the quarter pattern anchored at the head of `cs`; on success
return the quarter digit and the four year digits.  `\s+` is one
whitespace character followed by the maximal whitespace run (whitespace
and digits are disjoint, so the greedy run never backtracks). -/
def quarterMatchAt (cs : List Char) : Option (Char × Char × Char × Char × Char) :=
  match cs with
  | q :: d :: c :: rest =>
    if q = 'Q' ∧ (d = '1' ∨ d = '2' ∨ d = '3' ∨ d = '4') ∧ pySpace c then
      match rest.dropWhile pySpace with
      | a :: b :: c2 :: d2 :: _ =>
        if a.isDigit ∧ b.isDigit ∧ c2.isDigit ∧ d2.isDigit then
          some (d, a, b, c2, d2)
        else none
      | _ => none
    else none
  | _ => none

/-- Leftmost match of the quarter pattern (`re.search` semantics). -/
def findQuarterAux : List Char → Option (Char × Char × Char × Char × Char)
  | [] => none
  | c :: rest =>
    match quarterMatchAt (c :: rest) with
    | some r => some r
    | none => findQuarterAux rest

/-- `re.search(r"(Q[1-4])\s+(\d{4})", s)`, returning the two groups. -/
def findQuarter (s : String) : Option (String × String) :=
  (findQuarterAux s.data).map
    (fun r => (String.mk ['Q', r.1], String.mk [r.2.1, r.2.2.1, r.2.2.2.1, r.2.2.2.2]))

/-! ### Activity cells (`DataromaParser._parse_activity_cells`) -/

/-- Symbol/company extraction from the stock cell (cell 1). -/
def activityStockInfo (stock_cell : Cell) : String × String :=
  let p : String × String :=
    match stock_cell.link with
    | some lk =>
      let sym :=
        if containsSub lk.href "sym=" then (pySplit lk.href "sym=").getLastD ""
        else pyStrip lk.text
      let comp :=
        match lk.spanText with
        | some sp => pyStrip (lstripSet (pyStrip sp) ['-', ' '])
        | none => ""
      (sym, comp)
    | none => ("", "")
  if p.1 = "" then (pyStrip stock_cell.text, p.2) else p

/-- The `Activity` built by `_parse_activity_cells` from the five cells
(no failure branch of the `try` is reachable in the model: every cell
accessor is total). -/
def buildActivity (cells : List Cell) (manager_id quarter year : String) : Activity :=
  let sc := activityStockInfo (cells.getD 1 default)
  let action := pyStrip (cells.getD 2 default).text
  { symbol := sc.1
    manager_id := manager_id
    action := action
    date := if ¬ quarter = "" ∧ ¬ year = "" then quarter ++ " " ++ year else "Unknown"
    action_type := extract_action_type action
    shares := parse_number (cells.getD 3 default).text
    portfolio_percentage := parse_percentage (cells.getD 4 default).text
    company_name := sc.2 }

/-- `_parse_activity_cells`: `None` for fewer than five cells, otherwise
the built `Activity`. -/
def parse_activity_cells (cells : List Cell) (manager_id quarter year : String) : Option Activity :=
  if cells.length < 5 then none
  else some (buildActivity cells manager_id quarter year)

/-! ### The activity scan (`DataromaParser.parse_activities`) -/

/-- The inner collection loop of `parse_activities`: starting from index
`i`, walk forward appending `td` cells until five are collected or the
stream ends; return the collected cells and the remaining elements
(`i = j` in the source). -/
def collectTds (acc : List Cell) : List Node → List Cell × List Node
  | [] => (acc, [])
  | e :: rest =>
    if 5 ≤ acc.length then (acc, e :: rest)
    else
      match e with
      | Node.td c => collectTds (acc ++ [c]) rest
      | _ => collectTds acc rest

/-- The `while i < len(elements)` loop of `parse_activities`, carrying
`current_quarter` and `current_year`.  A non-`Tag` child or a tag that is
neither a `q_chg` row nor a `td` advances by one; a `q_chg` row updates
the quarter state when the regex matches; a `td` starts the five-cell
collection, emits an `Activity` when five cells were found, and resumes
after the collected region (`i = j`). -/
def parseActivitiesLoop (manager_id : String) : List Node → String → String → List Activity
  | [], _, _ => []
  | Node.textNode _ :: rest, q, y => parseActivitiesLoop manager_id rest q y
  | Node.tr classes txt :: rest, q, y =>
    if classes.contains "q_chg" then
      match findQuarter (pyStrip txt) with
      | some qy => parseActivitiesLoop manager_id rest qy.1 qy.2
      | none => parseActivitiesLoop manager_id rest q y
    else parseActivitiesLoop manager_id rest q y
  | Node.td c :: rest, q, y =>
    let col := collectTds [c] rest
    if 5 ≤ col.1.length then
      match parse_activity_cells col.1 manager_id q y with
      | some a => a :: parseActivitiesLoop manager_id col.2 q y
      | none => parseActivitiesLoop manager_id col.2 q y
    else parseActivitiesLoop manager_id col.2 q y
  | Node.otherTag _ :: rest, q, y => parseActivitiesLoop manager_id rest q y
termination_by l _ _ => l.length
decreasing_by
  all_goals simp only [List.length_cons]
  all_goals first
    | exact Nat.lt_succ_self _
    | · refine Nat.lt_succ_of_le ?_
        have H : ∀ (l : List Node) (acc : List Cell),
            ((collectTds acc l).2).length ≤ l.length := by
          intro l
          induction l with
          | nil => intro acc; simp [collectTds]
          | cons e r ih =>
            intro acc
            by_cases h5 : 5 ≤ acc.length
            · simp [collectTds, h5]
            · cases e <;> simp only [collectTds, h5, if_false, if_neg h5, List.length_cons] <;>
                exact Nat.le_succ_of_le (ih _)
        exact H rest [c]

/-- `parse_activities` on the token stream of direct `tbody` children,
starting with empty `current_quarter`/`current_year`. -/
def parse_activities (elements : List Node) (manager_id : String) : List Activity :=
  parseActivitiesLoop manager_id elements "" ""

/-! ### Holding rows (`DataromaParser._parse_holding_row`,
`_extract_stock_info`) -/

/-- `_extract_stock_info`: symbol and company name from a stock cell. -/
def extract_stock_info (cell : Cell) : String × String :=
  match cell.link with
  | some lk =>
    let sym0 :=
      if containsSub lk.href "sym=" then (pySplit lk.href "sym=").getLastD ""
      else if containsSub lk.href "stock.php" then
        let parts := (pySplit ((pySplit lk.href "/").getLastD "") "?").headD ""
        pyStrip (pyRemoveAll parts "stock.php")
      else ""
    let comp :=
      match lk.spanText with
      | some sp => pyStrip (lstripSet (pyStrip sp) ['-', ' '])
      | none => ""
    let sym := if sym0 = "" then pyStrip lk.text else sym0
    (sym, comp)
  | none =>
    let t := pyStrip cell.text
    match splitFirstStr t " - " with
    | some p => (pyStrip p.1, pyStrip p.2)
    | none => (t, "")

/-- The `Holding` `_parse_holding_row` builds once the row has enough
cells and a symbol (offsets shifted by one when the leading history cell
is present). -/
def buildHolding (cells : List Cell) (manager_id reporting_date quarter : String) : Holding :=
  let has_history_cell := (cells.getD 0 default).classes = ["hist"]
  let stock_cell_idx := if has_history_cell then 1 else 0
  let si := extract_stock_info (cells.getD stock_cell_idx default)
  let base_idx := if has_history_cell then 1 else 0
  let portfolio_pct := parse_percentage (cells.getD (base_idx + 1) default).text
  let w52 : ℚ × ℚ :=
    if base_idx + 10 < cells.length then
      (parse_currency (cells.getD (base_idx + 9) default).text,
       parse_currency (cells.getD (base_idx + 10) default).text)
    else (0, 0)
  { symbol := si.1
    company_name := si.2
    manager_id := manager_id
    shares := parse_number (cells.getD (base_idx + 3) default).text
    value := parse_number (String.mk
      ((cells.getD (base_idx + 5) default).text.data.filter
        (fun c => ¬ (c = '$' ∨ c = ','))))
    percentage := portfolio_pct
    portfolio_percent := portfolio_pct
    reported_price := parse_currency (cells.getD (base_idx + 4) default).text
    current_price :=
      if base_idx + 7 < cells.length then
        parse_currency (cells.getD (base_idx + 7) default).text
      else 0
    recent_activity := pyStrip (cells.getD (base_idx + 2) default).text
    week_52_low := w52.1
    week_52_high := w52.2
    reporting_date := reporting_date
    reporting_quarter := quarter }

/-- `_parse_holding_row`: `None` for fewer than eight cells or an empty
symbol, otherwise the built `Holding`. -/
def parse_holding_row (cells : List Cell) (manager_id reporting_date quarter : String) :
    Option Holding :=
  if cells.length < 8 then none
  else
    let has_history_cell := (cells.getD 0 default).classes = ["hist"]
    let stock_cell_idx := if has_history_cell then 1 else 0
    let si := extract_stock_info (cells.getD stock_cell_idx default)
    if si.1 = "" then none
    else some (buildHolding cells manager_id reporting_date quarter)

/-! ### HTTP client (`src/lib/clients/http_client.py`) -/

/-- The outcome of one `session.get` call, as `HTTPClient.get` observes
it: a response with a status code and body, or one of the exception
classes its `except` arms catch. -/
inductive HttpOutcome where
  | response (status : Nat) (text : String)
  | timeout
  | connectionError
  | unexpected (msg : String)
  deriving Repr, DecidableEq

/-- `requests.Response.raise_for_status` raises `HTTPError` exactly for
4xx/5xx status codes. -/
def isErrorStatus (status : Nat) : Bool :=
  400 ≤ status && status < 600

/-- `HTTPClient.get`: the response body on success, `None` on timeout,
connection error, HTTP error status, or any unexpected exception — a
total function into `Option`, never a raised exception. -/
def httpClientGet (outcome : HttpOutcome) : Option String :=
  match outcome with
  | HttpOutcome.response status text =>
    if isErrorStatus status then none else some text
  | HttpOutcome.timeout => none
  | HttpOutcome.connectionError => none
  | HttpOutcome.unexpected _ => none

/-! ### Rate limiter (`RateLimiter.wait_if_needed`)

Clock readings are passed explicitly: `t1` is the `time.time()` read on
entry, `t2` the `time.time()` read after the conditional sleep.  Floats
are modelled as `ℚ`. -/

structure RateLimiter where
  delay : ℚ
  last_request_time : ℚ
  deriving Repr, DecidableEq

/-- The amount `wait_if_needed` sleeps given the entry clock reading:
`delay - elapsed` when `elapsed < delay`, else nothing. -/
def sleepDuration (rl : RateLimiter) (t1 : ℚ) : ℚ :=
  if t1 - rl.last_request_time < rl.delay then rl.delay - (t1 - rl.last_request_time) else 0

/-- `wait_if_needed` ends by storing the exit clock reading `t2` as
`last_request_time`. -/
def wait_if_needed (rl : RateLimiter) (t2 : ℚ) : RateLimiter :=
  { rl with last_request_time := t2 }

/-! ### Activity pagination (`DataromaScraper._scrape_manager_activities`) -/

/-- One fetched-and-parsed activity page: the activities
`parse_activities` returns for it and the `L=` numbers found in its
pagination links. -/
structure ActivityPage where
  activities : List Activity
  pageLinkNums : List Nat
  deriving Repr, DecidableEq

/-- `_scrape_manager_activities` over an abstract fetcher
`fetch : page number → Option page` (the composition of
`http_client.get` and `parse_activities`): empty on a failed first page;
otherwise page 1's activities followed by, for every page from 2 to
`min(total_pages, max_pages)` in order, that page's activities when its
fetch succeeded and nothing when it failed. -/
def scrape_manager_activities (fetch : Nat → Option ActivityPage) (max_pages : Nat) :
    List Activity :=
  match fetch 1 with
  | none => []
  | some p1 =>
    let total_pages := p1.pageLinkNums.foldl max 1
    let pages_to_fetch := min total_pages max_pages
    p1.activities ++
      (List.range' 2 (pages_to_fetch - 1)).flatMap (fun k =>
        match fetch k with
        | some p => p.activities
        | none => [])

theorem collectTds_snd_length_le (l : List Node) : ∀ acc, ((collectTds acc l).2).length ≤ l.length := by
  induction l with
  | nil => intro acc; simp [collectTds]
  | cons e rest ih =>
    intro acc
    by_cases h : 5 ≤ acc.length
    · simp [collectTds, h]
    · cases e <;> simp only [collectTds, h, if_false, if_neg h, List.length_cons] <;>
        exact Nat.le_succ_of_le (ih _)

/-! ### Lemmas about the collection loop and the scan -/

theorem collectTds_exact (g : List Cell) : ∀ (acc : List Cell) (rest : List Node),
    acc.length + g.length = 5 →
    collectTds acc (g.map Node.td ++ rest) = (acc ++ g, rest) := by
  induction g with
  | nil =>
    intro acc rest h
    simp only [List.length_nil, Nat.add_zero] at h
    cases rest with
    | nil => simp [collectTds]
    | cons e r => simp [collectTds, h]
  | cons c g' ih =>
    intro acc rest h
    have hlt : ¬ 5 ≤ acc.length := by
      simp only [List.length_cons] at h; omega
    have hlen : (acc ++ [c]).length + g'.length = 5 := by
      simp only [List.length_append, List.length_cons, List.length_nil] at h ⊢
      omega
    simp only [List.map_cons, List.cons_append, collectTds, hlt, if_false, List.append_eq]
    rw [ih (acc ++ [c]) rest hlen]
    simp

theorem collectTds_partial (g : List Cell) : ∀ (acc : List Cell),
    acc.length + g.length < 5 →
    collectTds acc (g.map Node.td) = (acc ++ g, []) := by
  induction g with
  | nil => intro acc _; simp [collectTds]
  | cons c g' ih =>
    intro acc h
    have hlt : ¬ 5 ≤ acc.length := by
      simp only [List.length_cons] at h; omega
    have hlen : (acc ++ [c]).length + g'.length < 5 := by
      simp only [List.length_append, List.length_cons, List.length_nil] at h ⊢
      omega
    simp only [List.map_cons, collectTds, hlt, if_false, List.append_eq]
    rw [ih (acc ++ [c]) hlen]
    simp

theorem parse_activity_cells_of_len (cells : List Cell) (mid q y : String)
    (h : 5 ≤ cells.length) :
    parse_activity_cells cells mid q y = some (buildActivity cells mid q y) := by
  simp [parse_activity_cells, Nat.not_lt.mpr h]

/-- One full five-cell group at the head of the stream: the loop emits
exactly its Activity and resumes after it with unchanged state. -/
theorem loop_group_cons (mid q y : String) (g : List Cell) (tail : List Node)
    (hg : g.length = 5) :
    parseActivitiesLoop mid (g.map Node.td ++ tail) q y =
      buildActivity g mid q y :: parseActivitiesLoop mid tail q y := by
  cases g with
  | nil => simp at hg
  | cons c g' =>
    simp only [List.map_cons, List.cons_append]
    have hcol : collectTds [c] (g'.map Node.td ++ tail) = (c :: g', tail) := by
      have := collectTds_exact g' [c] tail
        (by simp only [List.length_cons, List.length_nil] at hg ⊢; omega)
      simpa using this
    simp only [parseActivitiesLoop, hcol]
    rw [parse_activity_cells_of_len _ _ _ _ (by rw [hg])]
    simp [hg]

/-- A run of complete five-cell groups: one Activity per group, the
quarter state carried unchanged across all of them. -/
theorem loop_flatten (mid q y : String) (gs : List (List Cell)) (tail : List Node)
    (hg : ∀ g ∈ gs, g.length = 5) :
    parseActivitiesLoop mid ((gs.map (fun g => g.map Node.td)).flatten ++ tail) q y =
      gs.map (fun g => buildActivity g mid q y) ++ parseActivitiesLoop mid tail q y := by
  induction gs with
  | nil => simp
  | cons g gs' ih =>
    simp only [List.map_cons, List.flatten_cons, List.append_assoc]
    rw [loop_group_cons mid q y g _ (hg g (by simp))]
    rw [ih (fun x hx => hg x (by simp [hx]))]
    simp

/-- A trailing group of fewer than five cells at end of stream yields
nothing. -/
theorem loop_trailing (mid q y : String) (g : List Cell) (hg : g.length < 5) :
    parseActivitiesLoop mid (g.map Node.td) q y = [] := by
  cases g with
  | nil => simp only [List.map_nil, parseActivitiesLoop]
  | cons c g' =>
    simp only [List.map_cons]
    have hcol : collectTds [c] (g'.map Node.td) = (c :: g', []) := by
      have := collectTds_partial g' [c]
        (by simp only [List.length_cons, List.length_nil] at hg ⊢; omega)
      simpa using this
    have hnot : ¬ 5 ≤ (c :: g').length := Nat.not_le.mpr hg
    simp only [parseActivitiesLoop, hcol, hnot, if_false]

theorem findQuarter_nonempty (s : String) (q y : String)
    (h : findQuarter s = some (q, y)) : ¬ q = "" ∧ ¬ y = "" := by
  simp only [findQuarter, Option.map_eq_some'] at h
  obtain ⟨r, -, hr⟩ := h
  obtain ⟨hq, hy⟩ := Prod.mk.injEq .. ▸ hr
  constructor
  · intro h0; rw [h0] at hq; exact absurd hq.symm (by simp [String.ext_iff])
  · intro h0; rw [h0] at hy; exact absurd hy.symm (by simp [String.ext_iff])

/-- Every Activity the scan emits is built by `buildActivity` from a
collected group of at least five cells, under some quarter state. -/
theorem loop_mem (mid : String) :
    ∀ (n : Nat) (l : List Node), l.length ≤ n → ∀ (q y : String) (a : Activity),
      a ∈ parseActivitiesLoop mid l q y →
      ∃ (cells : List Cell) (q' y' : String),
        5 ≤ cells.length ∧ a = buildActivity cells mid q' y' := by
  intro n
  induction n with
  | zero =>
    intro l hl q y a ha
    have : l = [] := List.eq_nil_of_length_eq_zero (Nat.le_zero.mp hl)
    rw [this, parseActivitiesLoop] at ha
    simp at ha
  | succ n ih =>
    intro l hl q y a ha
    match l with
    | [] => rw [parseActivitiesLoop] at ha; simp at ha
    | Node.textNode s :: rest =>
      rw [parseActivitiesLoop] at ha
      exact ih rest (by simpa using Nat.le_of_succ_le_succ (by simpa using hl)) q y a ha
    | Node.tr classes txt :: rest =>
      have hrest : rest.length ≤ n := by
        simp only [List.length_cons] at hl; omega
      rw [parseActivitiesLoop] at ha
      split at ha
      · split at ha
        · exact ih rest hrest _ _ a ha
        · exact ih rest hrest q y a ha
      · exact ih rest hrest q y a ha
    | Node.td c :: rest =>
      have hcol : ((collectTds [c] rest).2).length ≤ n := by
        have := collectTds_snd_length_le rest [c]
        simp only [List.length_cons] at hl; omega
      rw [parseActivitiesLoop] at ha
      split at ha
      · next h5 =>
        split at ha
        · next a0 heq =>
          simp only [parse_activity_cells] at heq
          split at heq
          · exact absurd heq (by simp)
          · next hlen =>
            rcases List.mem_cons.mp ha with hhd | htl
            · exact ⟨(collectTds [c] rest).1, q, y, Nat.le_of_not_lt hlen,
                by rw [hhd, ← Option.some.injEq]; exact heq.symm⟩
            · exact ih _ hcol q y a htl
        · exact ih _ hcol q y a ha
      · exact ih _ hcol q y a ha
    | Node.otherTag s :: rest =>
      rw [parseActivitiesLoop] at ha
      exact ih rest (by simp only [List.length_cons] at hl; omega) q y a ha

/-- `loop_mem` at the top level. -/
theorem parse_activities_mem (elements : List Node) (mid : String) (a : Activity)
    (ha : a ∈ parse_activities elements mid) :
    ∃ (cells : List Cell) (q' y' : String),
      5 ≤ cells.length ∧ a = buildActivity cells mid q' y' :=
  loop_mem mid elements.length elements (Nat.le_refl _) "" "" a ha

theorem parse_number_nonneg (text : String) : 0 ≤ parse_number text := by
  unfold parse_number
  split
  · exact le_refl 0
  · dsimp only
    split
    · exact le_refl 0
    · exact Int.natCast_nonneg _

theorem buildActivity_date_ne_empty (cells : List Cell) (mid q y : String) :
    ¬ (buildActivity cells mid q y).date = "" := by
  simp only [buildActivity]
  split
  · next h =>
    intro h0
    have hlen : (q ++ " " ++ y).length = 0 := by rw [h0]; rfl
    have hone : (" " : String).length = 1 := rfl
    simp only [String.length_append, hone] at hlen
    omega
  · simp

theorem buildActivity_shares_nonneg (cells : List Cell) (mid q y : String) :
    0 ≤ (buildActivity cells mid q y).shares :=
  parse_number_nonneg _

theorem buildActivity_date_of_state (cells : List Cell) (mid q y : String)
    (hq : ¬ q = "") (hy : ¬ y = "") :
    (buildActivity cells mid q y).date = q ++ " " ++ y := by
  simp [buildActivity, hq, hy]

theorem buildActivity_date_unknown (cells : List Cell) (mid : String) :
    (buildActivity cells mid "" "").date = "Unknown" := by
  simp [buildActivity]

theorem buildHolding_shares_nonneg (cells : List Cell) (mid rd qt : String) :
    0 ≤ (buildHolding cells mid rd qt).shares := by
  unfold buildHolding
  dsimp only
  exact parse_number_nonneg _

/-- Unfolding `_scrape_manager_activities` when page 1 succeeds. -/
theorem scrape_eq (fetch : Nat → Option ActivityPage) (max_pages : Nat)
    (p1 : ActivityPage) (h1 : fetch 1 = some p1) :
    scrape_manager_activities fetch max_pages =
      p1.activities ++
        (List.range' 2 (min (p1.pageLinkNums.foldl max 1) max_pages - 1)).flatMap
          (fun k => match fetch k with | some p => p.activities | none => []) := by
  unfold scrape_manager_activities
  rw [h1]

/-! ### Lemmas about the roster parser -/

theorem mem_of_mem_dedupFirst :
    ∀ (n : Nat) (l : List String), l.length ≤ n → ∀ a, a ∈ dedupFirst l → a ∈ l := by
  intro n
  induction n with
  | zero =>
    intro l hl a ha
    have : l = [] := List.eq_nil_of_length_eq_zero (Nat.le_zero.mp hl)
    subst this
    simp only [dedupFirst] at ha
    exact absurd ha (List.not_mem_nil a)
  | succ n ih =>
    intro l hl a ha
    match l with
    | [] =>
      simp only [dedupFirst] at ha
      exact absurd ha (List.not_mem_nil a)
    | x :: rest =>
      simp only [dedupFirst] at ha
      rcases List.mem_cons.mp ha with h | h
      · exact h ▸ List.mem_cons_self x rest
      · have hlen : (rest.filter (fun y => ! (y == x))).length ≤ n := by
          have := List.length_filter_le (fun y => ! (y == x)) rest
          simp only [List.length_cons] at hl
          omega
        have := ih _ hlen a h
        exact List.mem_cons_of_mem x (List.mem_filter.mp this).1

theorem dedupFirst_nodup :
    ∀ (n : Nat) (l : List String), l.length ≤ n → (dedupFirst l).Nodup := by
  intro n
  induction n with
  | zero =>
    intro l hl
    have : l = [] := List.eq_nil_of_length_eq_zero (Nat.le_zero.mp hl)
    subst this
    simp [dedupFirst]
  | succ n ih =>
    intro l hl
    match l with
    | [] => simp [dedupFirst]
    | x :: rest =>
      simp only [dedupFirst]
      have hlen : (rest.filter (fun y => ! (y == x))).length ≤ n := by
        have := List.length_filter_le (fun y => ! (y == x)) rest
        simp only [List.length_cons] at hl
        omega
      refine List.nodup_cons.mpr ⟨?_, ih _ hlen⟩
      intro hx
      have := (List.mem_filter.mp (mem_of_mem_dedupFirst _ _ hlen x hx)).2
      simp at this

theorem managerOfAnchor_id (a : Anchor) :
    (managerOfAnchor a).id = managerIdOfHref a.href := by
  unfold managerOfAnchor
  dsimp only
  split <;> rfl

/-- The scan of `parse_managers_list` emits, as codes, exactly the
first-seen de-duplication of the matching anchors' codes not yet seen. -/
theorem parseManagersGo_map_id :
    ∀ (anchors : List Anchor) (seen : List String),
      (parseManagersGo seen anchors).map Manager.id =
        dedupFirst ((anchorIds anchors).filter (fun i => ! seen.contains i)) := by
  intro anchors
  induction anchors with
  | nil => intro seen; simp [parseManagersGo, anchorIds, dedupFirst]
  | cons a rest ih =>
    intro seen
    by_cases hm : isManagerHref a.href
    · by_cases hseen : seen.contains (managerIdOfHref a.href)
      · have hmem : managerIdOfHref a.href ∈ seen := by simpa using hseen
        have hstep : parseManagersGo seen (a :: rest) = parseManagersGo seen rest := by
          simp only [parseManagersGo]
          rw [if_pos hm, if_pos hseen]
        rw [hstep, ih seen]
        congr 1
        simp [anchorIds, hm, hmem]
      · have hmem : ¬ managerIdOfHref a.href ∈ seen := by simpa using hseen
        have hstep : parseManagersGo seen (a :: rest) =
            managerOfAnchor a :: parseManagersGo (managerIdOfHref a.href :: seen) rest := by
          simp only [parseManagersGo]
          rw [if_pos hm, if_neg hseen]
        rw [hstep]
        simp only [List.map_cons, managerOfAnchor_id]
        rw [ih (managerIdOfHref a.href :: seen)]
        have hfil : (anchorIds rest).filter
              (fun i => ! (managerIdOfHref a.href :: seen).contains i) =
            ((anchorIds rest).filter (fun i => ! seen.contains i)).filter
              (fun y => ! (y == managerIdOfHref a.href)) := by
          rw [List.filter_filter]
          apply List.filter_congr
          intro x _
          simp only [List.contains_cons, Bool.not_or]
        have hrhs : (anchorIds (a :: rest)).filter (fun i => ! seen.contains i) =
            managerIdOfHref a.href ::
              (anchorIds rest).filter (fun i => ! seen.contains i) := by
          simp [anchorIds, hm, hmem]
        rw [hrhs]
        simp only [dedupFirst]
        rw [hfil]
    · have hstep : parseManagersGo seen (a :: rest) = parseManagersGo seen rest := by
        simp only [parseManagersGo]
        rw [if_neg hm]
      rw [hstep, ih seen]
      congr 1
      simp [anchorIds, hm]

theorem parse_managers_list_empty (anchors : List Anchor)
    (h : ∀ a ∈ anchors, isManagerHref a.href = false) :
    parse_managers_list anchors = [] := by
  unfold parse_managers_list
  induction anchors with
  | nil => simp [parseManagersGo]
  | cons a rest ih =>
    have ha := h a (List.mem_cons_self a rest)
    simp only [parseManagersGo, ha, Bool.false_eq_true, if_false]
    exact ih (fun x hx => h x (List.mem_cons_of_mem a hx))

/-! ## Claims -/

/-- C6.  `parse_managers_list` de-duplicates by manager code keeping the
first-seen occurrence in document order — its codes are exactly the
first-seen de-duplication of the matching anchors' codes, hence pairwise
distinct — and returns the empty list (not an error) when no anchor
matches the holdings-page pattern.  The two-anchor roster scenario:
codes from the href query parameter, names split on the first " - ". -/
theorem c6_parse_managers_list :
    (∀ anchors : List Anchor,
      (parse_managers_list anchors).map Manager.id = dedupFirst (anchorIds anchors)) ∧
    (∀ anchors : List Anchor, ((parse_managers_list anchors).map Manager.id).Nodup) ∧
    (∀ anchors : List Anchor, (∀ a ∈ anchors, isManagerHref a.href = false) →
      parse_managers_list anchors = []) ∧
    parse_managers_list
        [⟨"/m/holdings.php?m=BRK", " Warren Buffett - Berkshire Hathaway "⟩,
         ⟨"/m/holdings.php?m=oaktree", "Howard Marks - Oaktree Capital"⟩] =
      [⟨"BRK", "Warren Buffett", "Berkshire Hathaway", 0⟩,
       ⟨"oaktree", "Howard Marks", "Oaktree Capital", 0⟩] := by
  have hmain : ∀ anchors : List Anchor,
      (parse_managers_list anchors).map Manager.id = dedupFirst (anchorIds anchors) := by
    intro anchors
    unfold parse_managers_list
    rw [parseManagersGo_map_id anchors []]
    congr 1
    apply List.filter_eq_self.mpr
    intro x _
    simp
  refine ⟨hmain, ?_, parse_managers_list_empty, by decide⟩
  intro anchors
  rw [hmain anchors]
  exact dedupFirst_nodup (anchorIds anchors).length _ (Nat.le_refl _)

/-- C6, witness: the two-anchor roster (with one of them duplicated)
yields distinct codes, and a roster with no matching anchors yields the
empty list. -/
theorem c6_parse_managers_list_witness :
    ((parse_managers_list
        [⟨"/m/holdings.php?m=BRK", "Warren Buffett - Berkshire Hathaway"⟩,
         ⟨"/m/holdings.php?m=BRK", "Warren Buffett - Berkshire Hathaway"⟩,
         ⟨"/m/holdings.php?m=oaktree", "Howard Marks - Oaktree Capital"⟩]).map
      Manager.id).Nodup ∧
    parse_managers_list [⟨"/m/home.php", "Home"⟩] = [] :=
  ⟨c6_parse_managers_list.2.1 _,
   c6_parse_managers_list.2.2.1 [⟨"/m/home.php", "Home"⟩] (by decide)⟩

/-- C3, counterexample.  The claim's ordered classifier ("sold all"/
"sold out"/"exit" checked first, yielding Sell) disagrees with
`_extract_action_type` at the action string "exit": the code has no
"exit" (nor "new", nor sign-prefix) check, so "exit" falls through every
substring test and is classified Hold. -/
theorem c3_counterexample :
    spec_action_type "exit" = "Sell" ∧ extract_action_type "exit" = "Hold" := by
  constructor <;> decide

/-- C3, amended.  `_extract_action_type` classifies by ordered substring
checks on the lower-cased action string, but in the order buy, add,
reduce, sell/sold, with Hold as the fallback and the empty string mapped
to the empty type; there are no "exit"/"new" checks and no
leading-sign checks. -/
theorem c3_extract_action_type_amended :
    (∀ action : String,
      extract_action_type action =
        (if action = "" then ""
         else if containsSub (pyLower action) "buy" then "Buy"
         else if containsSub (pyLower action) "add" then "Add"
         else if containsSub (pyLower action) "reduce" then "Reduce"
         else if containsSub (pyLower action) "sell" || containsSub (pyLower action) "sold"
           then "Sell"
         else "Hold")) ∧
    extract_action_type "Sold All" = "Sell" ∧
    extract_action_type "Sold Out" = "Sell" ∧
    extract_action_type "Buy" = "Buy" ∧
    extract_action_type "Add 12.3%" = "Add" ∧
    extract_action_type "Reduce 4.5%" = "Reduce" ∧
    extract_action_type "exit" = "Hold" ∧
    extract_action_type "" = "" := by
  refine ⟨fun action => rfl, ?_, ?_, ?_, ?_, ?_, ?_, ?_⟩ <;> decide

/-- C8.  `_parse_currency` is total, strips `$`/`,`/whitespace, parses
the rest as a float and defaults to `0.0` whenever `float` would raise:
`"$1,234.50"` parses to `1234.50`, the empty string and `"N/A"` give
`0.0`. -/
theorem c8_parse_currency :
    parse_currency "$1,234.50" = 1234.5 ∧
    parse_currency "" = 0 ∧
    parse_currency "N/A" = 0 ∧
    (∀ s : String,
      parse_currency s =
        (pyFloat (String.mk (s.data.filter
          (fun c => ¬ (c = '$' ∨ c = ',' ∨ pySpace c))))).getD 0) := by
  refine ⟨?_, by decide, by decide, ?_⟩
  · show (pyFloat (String.mk ("$1,234.50".data.filter
        (fun c => ¬ (c = '$' ∨ c = ',' ∨ pySpace c))))).getD 0 = 1234.5
    simp +decide [pyFloat, pySpace, stripChars, parseUnsignedFloat, parseDigitGroup,
      moreDigits, parseExpPart, digitsToNat, applyExp]
    norm_num
  · intro s
    by_cases h : s = ""
    · subst h; decide
    · simp [parse_currency, h]

/-- C5.  `HTTPClient.get` is a total function into `Option`: the body on
a non-error response, `None` on timeout, connection error, HTTP error
status (4xx/5xx, raised by `raise_for_status` and caught), and any
unexpected exception — expected network failures are signalled as a
result value, never raised. -/
theorem c5_http_client_get :
    (∀ (status : Nat) (text : String), isErrorStatus status = false →
      httpClientGet (HttpOutcome.response status text) = some text) ∧
    (∀ (status : Nat) (text : String), isErrorStatus status = true →
      httpClientGet (HttpOutcome.response status text) = none) ∧
    httpClientGet HttpOutcome.timeout = none ∧
    httpClientGet HttpOutcome.connectionError = none ∧
    (∀ msg : String, httpClientGet (HttpOutcome.unexpected msg) = none) := by
  refine ⟨?_, ?_, rfl, rfl, fun _ => rfl⟩
  · intro status text h
    simp [httpClientGet, h]
  · intro status text h
    simp [httpClientGet, h]

/-- C5, witness: a 200 response returns its body; a 404 and a timeout
return no data. -/
theorem c5_http_client_get_witness :
    httpClientGet (HttpOutcome.response 200 "body") = some "body" ∧
    httpClientGet (HttpOutcome.response 404 "err") = none ∧
    httpClientGet HttpOutcome.timeout = none :=
  ⟨c5_http_client_get.1 200 "body" (by decide),
   c5_http_client_get.2.1 404 "err" (by decide),
   c5_http_client_get.2.2.1⟩

/-- C9.  With `t1` the clock reading `wait_if_needed` takes on entry and
`t2` the reading it stores on exit (so `t2` is the completion time and
the stored `last_request_time` of the previous call was that call's
completion time), and with `time.sleep` guaranteeing at least the
requested duration (`t1 + sleepDuration ≤ t2`), the completion of this
call is at least `delay` after the completion of the previous one. -/
theorem c9_wait_if_needed (rl : RateLimiter) (t1 t2 : ℚ)
    (hd : 0 ≤ rl.delay) (hs : t1 + sleepDuration rl t1 ≤ t2) :
    rl.last_request_time + rl.delay ≤ (wait_if_needed rl t2).last_request_time := by
  unfold wait_if_needed
  simp only
  unfold sleepDuration at hs
  split at hs
  · linarith
  · next h => rw [not_lt] at h; linarith

/-- C9, witness: delay `0.2`, previous completion at time `0`, entry
reading `0`, exit reading `1/5`: the second completion is at least `0.2`
after the first. -/
theorem c9_wait_if_needed_witness :
    (0 : ℚ) ≤ (1 / 5 : ℚ) ∧
    (0 : ℚ) + sleepDuration ⟨1 / 5, 0⟩ 0 ≤ (1 / 5 : ℚ) ∧
    (0 : ℚ) + (1 / 5 : ℚ) ≤ (wait_if_needed ⟨1 / 5, 0⟩ (1 / 5)).last_request_time := by
  have hd : (0 : ℚ) ≤ (1 / 5 : ℚ) := by norm_num
  have hs : (0 : ℚ) + sleepDuration ⟨1 / 5, 0⟩ 0 ≤ (1 / 5 : ℚ) := by
    norm_num [sleepDuration]
  exact ⟨hd, hs, c9_wait_if_needed ⟨1 / 5, 0⟩ 0 (1 / 5) hd hs⟩

/-- C2.  After a `q_chg` header row whose text matches the quarter
regex with groups `q`/`y`, every one of the following complete five-cell
groups (with no intervening header) yields one Activity labelled
`q ++ " " ++ y`: the quarter state is carried unchanged across all of
them, whatever follows afterwards. -/
theorem c2_quarter_carried_forward (mid htxt q y : String) (gs : List (List Cell))
    (tail : List Node)
    (hq : findQuarter (pyStrip htxt) = some (q, y))
    (hgs : ∀ g ∈ gs, g.length = 5) :
    parse_activities
        (Node.tr ["q_chg"] htxt :: ((gs.map (fun g => g.map Node.td)).flatten ++ tail)) mid =
      gs.map (fun g => buildActivity g mid q y) ++ parseActivitiesLoop mid tail q y ∧
    ∀ a ∈ gs.map (fun g => buildActivity g mid q y), a.date = q ++ " " ++ y := by
  have hne := findQuarter_nonempty _ _ _ hq
  constructor
  · unfold parse_activities
    have hstep : parseActivitiesLoop mid
        (Node.tr ["q_chg"] htxt :: ((gs.map (fun g => g.map Node.td)).flatten ++ tail)) "" "" =
        parseActivitiesLoop mid ((gs.map (fun g => g.map Node.td)).flatten ++ tail) q y := by
      simp only [parseActivitiesLoop]
      rw [if_pos (by decide), hq]
    rw [hstep]
    exact loop_flatten mid q y gs tail hgs
  · intro a ha
    obtain ⟨g, -, rfl⟩ := List.mem_map.mp ha
    exact buildActivity_date_of_state g mid q y hne.1 hne.2

/-- C2, witness: a "Q2 2019" header followed by two five-cell groups
yields two Activities, both dated "Q2 2019". -/
theorem c2_quarter_carried_forward_witness :
    parse_activities
        (Node.tr ["q_chg"] "Q2 2019" ::
          ((([List.replicate 5 ({} : Cell), List.replicate 5 ({} : Cell)]).map
            (fun g => g.map Node.td)).flatten ++ [])) "m" =
      [buildActivity (List.replicate 5 {}) "m" "Q2" "2019",
       buildActivity (List.replicate 5 {}) "m" "Q2" "2019"] ∧
    (buildActivity (List.replicate 5 ({} : Cell)) "m" "Q2" "2019").date = "Q2 2019" := by
  have h := c2_quarter_carried_forward "m" "Q2 2019" "Q2" "2019"
    [List.replicate 5 {}, List.replicate 5 {}] [] (by decide) (by decide)
  constructor
  · rw [h.1]
    simp [parseActivitiesLoop]
  · have hd := h.2 (buildActivity (List.replicate 5 ({} : Cell)) "m" "Q2" "2019") (by simp)
    rw [hd]
    decide

/-- C1, counterexample.  A group of five cells occurring before any
quarter header does not produce zero Activities: `parse_activities`
emits one Activity for it, with the sentinel date "Unknown" (the
`period = "Unknown"` branch of `_parse_activity_cells`). -/
theorem c1_counterexample :
    (parse_activities ((List.replicate 5 ({} : Cell)).map Node.td) "m").length = 1 ∧
    (parse_activities ((List.replicate 5 ({} : Cell)).map Node.td) "m").map Activity.date =
      ["Unknown"] := by
  have h := loop_group_cons "m" "" "" (List.replicate 5 {}) [] (by decide)
  simp only [List.append_nil] at h
  unfold parse_activities
  rw [h]
  have hloop : parseActivitiesLoop "m" [] "" "" = [] := by
    simp [parseActivitiesLoop]
  rw [hloop]
  exact ⟨rfl, by simp [buildActivity_date_unknown]⟩

/-- C1, amended.  An activity group parsed without quarter context is
not dropped: it yields an Activity whose date is the sentinel
"Unknown"; and every Activity carries a non-empty date (either a
`"Q# YYYY"` label or "Unknown"). -/
theorem c1_amended :
    (∀ (elements : List Node) (mid : String), ∀ a ∈ parse_activities elements mid,
      ¬ a.date = "") ∧
    (∀ (gs : List (List Cell)) (mid : String), (∀ g ∈ gs, g.length = 5) →
      (parse_activities ((gs.map (fun g => g.map Node.td)).flatten) mid).length = gs.length ∧
      ∀ a ∈ parse_activities ((gs.map (fun g => g.map Node.td)).flatten) mid,
        a.date = "Unknown") := by
  constructor
  · intro elements mid a ha
    obtain ⟨cells, q', y', -, rfl⟩ := parse_activities_mem elements mid a ha
    exact buildActivity_date_ne_empty cells mid q' y'
  · intro gs mid hgs
    have heq : parse_activities ((gs.map (fun g => g.map Node.td)).flatten) mid =
        gs.map (fun g => buildActivity g mid "" "") := by
      unfold parse_activities
      have h1 := loop_flatten mid "" "" gs [] hgs
      simp only [List.append_nil] at h1
      rw [h1]
      have hloop : parseActivitiesLoop mid [] "" "" = [] := by
        simp [parseActivitiesLoop]
      rw [hloop, List.append_nil]
    constructor
    · rw [heq]; simp
    · intro a ha
      rw [heq] at ha
      obtain ⟨g, -, rfl⟩ := List.mem_map.mp ha
      exact buildActivity_date_unknown g mid

/-- C1, witness: the five-cell no-header stream yields one Activity and
its date "Unknown" is non-empty. -/
theorem c1_amended_witness :
    (parse_activities ((([List.replicate 5 ({} : Cell)]).map
        (fun g => g.map Node.td)).flatten) "m").length = 1 ∧
    ¬ (buildActivity (List.replicate 5 ({} : Cell)) "m" "" "").date = "" := by
  have h2 := c1_amended.2 [List.replicate 5 ({} : Cell)] "m" (by decide)
  refine ⟨h2.1, ?_⟩
  have hmem : buildActivity (List.replicate 5 ({} : Cell)) "m" "" "" ∈
      parse_activities ((List.replicate 5 ({} : Cell)).map Node.td) "m" := by
    unfold parse_activities
    have h := loop_group_cons "m" "" "" (List.replicate 5 {}) [] (by decide)
    simp only [List.append_nil] at h
    rw [h]
    exact List.mem_cons_self _ _
  exact c1_amended.1 ((List.replicate 5 ({} : Cell)).map Node.td) "m" _ hmem

/-- C7.  `parse_activities` never emits a partial record: every emitted
Activity is decoded from a collected group of at least five cells, and a
trailing group of fewer than five cells at end of stream contributes
zero Activities. -/
theorem c7_no_partial_record :
    (∀ (elements : List Node) (mid : String), ∀ a ∈ parse_activities elements mid,
      ∃ (cells : List Cell) (q' y' : String),
        5 ≤ cells.length ∧ a = buildActivity cells mid q' y') ∧
    (∀ (gs : List (List Cell)) (trailing : List Cell) (mid : String),
      (∀ g ∈ gs, g.length = 5) → trailing.length < 5 →
      (parse_activities
        ((gs.map (fun g => g.map Node.td)).flatten ++ trailing.map Node.td) mid).length =
        gs.length) := by
  constructor
  · exact fun elements mid a ha => parse_activities_mem elements mid a ha
  · intro gs trailing mid hgs htr
    unfold parse_activities
    rw [loop_flatten mid "" "" gs (trailing.map Node.td) hgs]
    rw [loop_trailing mid "" "" trailing htr]
    simp

/-- C7, witness: one complete group followed by a trailing group of
three cells yields exactly one Activity. -/
theorem c7_no_partial_record_witness :
    (parse_activities ((([List.replicate 5 ({} : Cell)]).map
        (fun g => g.map Node.td)).flatten ++
        (List.replicate 3 ({} : Cell)).map Node.td) "m").length = 1 :=
  c7_no_partial_record.2 [List.replicate 5 {}] (List.replicate 3 {}) "m"
    (by decide) (by decide)

/-- C10.  `_parse_number` always returns a non-negative integer (the
first maximal digit run after commas/whitespace removal, `0` when there
is none, sign and decimal part discarded — `"-1,234.56"` gives `1234`),
so the `shares` of every Holding from `_parse_holding_row` and of every
Activity from `parse_activities` is `≥ 0`. -/
theorem c10_shares_nonneg :
    (∀ s : String, 0 ≤ parse_number s) ∧
    parse_number "-1,234.56" = 1234 ∧
    (∀ (cells : List Cell) (mid rd qt : String) (h : Holding),
      parse_holding_row cells mid rd qt = some h → 0 ≤ h.shares) ∧
    (∀ (elements : List Node) (mid : String), ∀ a ∈ parse_activities elements mid,
      0 ≤ a.shares) := by
  refine ⟨parse_number_nonneg, by decide, ?_, ?_⟩
  · intro cells mid rd qt h hrow
    unfold parse_holding_row at hrow
    split at hrow
    · exact absurd hrow (by simp)
    · dsimp only at hrow
      repeat' split at hrow
      all_goals simp only [Option.some.injEq, reduceCtorEq] at hrow
      all_goals exact hrow ▸ buildHolding_shares_nonneg cells mid rd qt
  · intro elements mid a ha
    obtain ⟨cells, q', y', -, rfl⟩ := parse_activities_mem elements mid a ha
    exact buildActivity_shares_nonneg cells mid q' y'

/-- A well-formed eight-cell holding row whose numeric cells are empty. -/
def wRowCells : List Cell :=
  { text := "AAPL - Apple" } :: List.replicate 7 ({} : Cell)

/-- The Holding `_parse_holding_row` produces from `wRowCells`. -/
def wHolding : Holding :=
  { symbol := "AAPL", company_name := "Apple", manager_id := "m",
    shares := 0, value := 0, percentage := 0 }

/-- C10, witness: the concrete holding row parses to a Holding with
non-negative shares, and the Activity of a concrete five-cell group has
non-negative shares. -/
theorem c10_shares_nonneg_witness :
    parse_holding_row wRowCells "m" "" "" = some wHolding ∧
    0 ≤ wHolding.shares ∧
    0 ≤ (buildActivity (List.replicate 5 ({} : Cell)) "m" "" "").shares := by
  have hrow : parse_holding_row wRowCells "m" "" "" = some wHolding := by decide
  have hmem : buildActivity (List.replicate 5 ({} : Cell)) "m" "" "" ∈
      parse_activities ((List.replicate 5 ({} : Cell)).map Node.td) "m" := by
    unfold parse_activities
    have h := loop_group_cons "m" "" "" (List.replicate 5 {}) [] (by decide)
    simp only [List.append_nil] at h
    rw [h]
    exact List.mem_cons_self _ _
  exact ⟨hrow, c10_shares_nonneg.2.2.1 wRowCells "m" "" "" wHolding hrow,
    c10_shares_nonneg.2.2.2 ((List.replicate 5 ({} : Cell)).map Node.td) "m" _ hmem⟩

/-- A concrete activity record for the pagination scenario (page 1). -/
def actA : Activity :=
  { symbol := "A", manager_id := "m", action := "Buy", date := "Q1 2020" }

/-- A concrete activity record for the pagination scenario (page 3). -/
def actC : Activity :=
  { symbol := "C", manager_id := "m", action := "Buy", date := "Q1 2020" }

/-- A fetcher whose page 1 succeeds (pagination links point at 3 pages),
page 2 fails, page 3 succeeds. -/
def cexFetch : Nat → Option ActivityPage := fun k =>
  if k = 1 then some ⟨[actA], [3]⟩
  else if k = 3 then some ⟨[actC], []⟩
  else none

/-- C4, counterexample.  With page 2 failing, `_scrape_manager_activities`
does not stop: it still fetches page 3 and keeps its activities — the
result is page 1's and page 3's activities, not page 1's alone. -/
theorem c4_counterexample :
    cexFetch 2 = none ∧
    scrape_manager_activities cexFetch 20 = [actA, actC] ∧
    actC ∈ scrape_manager_activities cexFetch 20 := by
  refine ⟨rfl, by decide, by decide⟩

/-- C4, amended.  When a page fetch fails, that page contributes no
activities but pagination continues: every page in range 2..min(total
pages, cap) whose fetch succeeded contributes its activities to the
result, whether it comes before or after a failed page; page 1's
activities are always kept, and if every later page fails the result is
exactly page 1's activities. -/
theorem c4_pagination_amended (fetch : Nat → Option ActivityPage) (max_pages : Nat)
    (p1 : ActivityPage) (h1 : fetch 1 = some p1) :
    (∀ a ∈ p1.activities, a ∈ scrape_manager_activities fetch max_pages) ∧
    (∀ (j : Nat) (p : ActivityPage), 2 ≤ j →
      j ≤ min (p1.pageLinkNums.foldl max 1) max_pages → fetch j = some p →
      ∀ a ∈ p.activities, a ∈ scrape_manager_activities fetch max_pages) ∧
    scrape_manager_activities (fun k => if k = 1 then fetch 1 else none) max_pages =
      p1.activities := by
  have heq := scrape_eq fetch max_pages p1 h1
  refine ⟨?_, ?_, ?_⟩
  · intro a ha
    rw [heq]
    exact List.mem_append_left _ ha
  · intro j p h2 hle hj a ha
    rw [heq]
    refine List.mem_append_right _ (List.mem_flatMap.mpr ⟨j, ?_, ?_⟩)
    · refine List.mem_range'_1.mpr ⟨h2, ?_⟩
      omega
    · rw [hj]
      exact ha
  · have hf1 : (fun k => if k = 1 then fetch 1 else none) 1 = some p1 := by
      show (if (1 : Nat) = 1 then fetch 1 else none) = some p1
      rw [if_pos rfl]
      exact h1
    rw [scrape_eq (fun k => if k = 1 then fetch 1 else none) max_pages p1 hf1]
    have hnil : (List.range' 2 (min (p1.pageLinkNums.foldl max 1) max_pages - 1)).flatMap
        (fun k => match (fun j => if j = 1 then fetch 1 else none) k with
          | some p => p.activities | none => []) = [] := by
      apply List.flatMap_eq_nil_iff.mpr
      intro k hk
      have h2k : 2 ≤ k := (List.mem_range'_1.mp hk).1
      show (match (if k = 1 then fetch 1 else none) with
        | some p => p.activities | none => []) = []
      rw [if_neg (by omega)]
    rw [hnil, List.append_nil]

/-- C4 amended, witness: in the concrete scenario, page 1's and page 3's
activities are both kept despite page 2 failing, and with every later
page failing only page 1's activities remain. -/
theorem c4_pagination_amended_witness :
    actA ∈ scrape_manager_activities cexFetch 20 ∧
    actC ∈ scrape_manager_activities cexFetch 20 ∧
    scrape_manager_activities (fun k => if k = 1 then cexFetch 1 else none) 20 = [actA] := by
  have h := c4_pagination_amended cexFetch 20 ⟨[actA], [3]⟩ rfl
  exact ⟨h.1 actA (by decide),
    h.2.1 3 ⟨[actC], []⟩ (by decide) (by decide) rfl actC (by decide),
    h.2.2⟩

end Dataroma
